import Mathlib

/-!
Verification of the simple-agent repository: the MCP server's ephemeral
search-result cache (TTL plus capacity eviction), the durable topic-news
repository, the search/save tool handlers, and the CLI streaming turn.

The embedding models the JavaScript `Map` as an association list in
insertion order (JS maps iterate in insertion order), timestamps as
integers (milliseconds for the cache, an abstract insert-time stamp for
the repository's `datetime('now')` column), and JS's stable `Array.sort`
as `List.insertionSort`, which is stable for the same comparator.
-/

namespace SimpleAgent

/-- Mirror of the server's `SearchResult` interface: every field optional. -/
structure SearchResult where
  title : Option String
  url : Option String
  date : Option String
  snippet : Option String
deriving Repr, DecidableEq

/-- Mirror of the server's `CachedSearchResult` interface. -/
structure CachedSearchResult where
  query : String
  answerText : String
  sources : List SearchResult
  createdAt : Int
deriving Repr, DecidableEq

/-- The `searchCache : Map<string, CachedSearchResult>` in insertion order. -/
abbrev Cache := List (String × CachedSearchResult)

def SEARCH_CACHE_TTL_MS : Int := 30 * 60 * 1000

def SEARCH_CACHE_MAX_ITEMS : Nat := 200

/-- `searchCache.get(k)`: plain map lookup, no expiry check. -/
def mapGet (cache : Cache) (k : String) : Option CachedSearchResult :=
  (cache.find? (fun p => p.1 == k)).map Prod.snd

/-- `searchCache.set(k, v)`: updates in place if the key exists, else appends. -/
def mapSet (cache : Cache) (k : String) (v : CachedSearchResult) : Cache :=
  if cache.any (fun p => p.1 == k) then
    cache.map (fun p => if p.1 == k then (k, v) else p)
  else cache ++ [(k, v)]

/-- The comparator `(a, b) => a[1].createdAt - b[1].createdAt` as an order. -/
def byCreatedAt (a b : String × CachedSearchResult) : Prop :=
  a.2.createdAt ≤ b.2.createdAt

instance : DecidableRel byCreatedAt := fun a b => Int.decLe _ _

instance : IsTotal (String × CachedSearchResult) byCreatedAt :=
  ⟨fun a b => Int.le_total _ _⟩

instance : IsTrans (String × CachedSearchResult) byCreatedAt :=
  ⟨fun _ _ _ => Int.le_trans⟩

/-- The entries surviving the TTL pass of `cleanupSearchCache`: the loop
deletes every entry with `now - value.createdAt > SEARCH_CACHE_TTL_MS`. -/
def ttlSurvivors (now : Int) (cache : Cache) : Cache :=
  cache.filter (fun p => decide (now - p.2.createdAt ≤ SEARCH_CACHE_TTL_MS))

/-- The keys deleted by the capacity pass of `cleanupSearchCache`: the
first `size - max` keys of the entries sorted by `createdAt` ascending
(JS `Array.sort` is stable; `List.insertionSort` is stable for the same
comparator). -/
def removedKeys (l1 : Cache) : List String :=
  ((List.insertionSort byCreatedAt l1).take (l1.length - SEARCH_CACHE_MAX_ITEMS)).map Prod.fst

/-- `cleanupSearchCache(now)`: delete expired entries; if still over
`SEARCH_CACHE_MAX_ITEMS`, delete the `removedKeys` from the map. Map
deletion preserves the relative order of the survivors. -/
def cleanupSearchCache (now : Int) (cache : Cache) : Cache :=
  if (ttlSurvivors now cache).length ≤ SEARCH_CACHE_MAX_ITEMS then ttlSurvivors now cache
  else
    (ttlSurvivors now cache).filter
      (fun p => decide (p.1 ∉ removedKeys (ttlSurvivors now cache)))

/-- JS `String.prototype.trim`, over the character sequence. -/
def jsTrim (s : String) : String :=
  ⟨((s.data.dropWhile Char.isWhitespace).reverse.dropWhile Char.isWhitespace).reverse⟩

/-- JS `String.prototype.slice(0, n)`, over the character sequence. -/
def jsSlice (s : String) (n : Nat) : String :=
  ⟨s.data.take n⟩

/-- Split a character sequence at the first occurrence of `://`, if any. -/
def breakSchemeSep : List Char → Option (List Char × List Char)
  | [] => none
  | ':' :: '/' :: '/' :: rest => some ([], rest)
  | c :: rest =>
    match breakSchemeSep rest with
    | none => none
    | some p => some (c :: p.1, p.2)

/-- Model of the platform WHATWG URL parser used by `new URL(url).hostname`
(a runtime builtin, external to the repository): a string parses when it
has a nonempty alphabetic scheme, `://`, and a nonempty host free of
spaces; the hostname is the part between `://` and the first `/`. -/
def parseUrlHostname (url : String) : Option String :=
  match breakSchemeSep url.data with
  | none => none
  | some (scheme, rest) =>
    if scheme.isEmpty then none
    else if !scheme.all Char.isAlpha then none
    else
      if (rest.takeWhile (fun c => !(c == '/'))).isEmpty then none
      else if (rest.takeWhile (fun c => !(c == '/'))).any (fun c => c == ' ') then none
      else some ⟨rest.takeWhile (fun c => !(c == '/'))⟩

/-- `sourceFromUrl`: hostname of the URL, or "unknown" when parsing throws. -/
def sourceFromUrl (url : String) : String :=
  (parseUrlHostname url).getD "unknown"

/-- The JS idiom `o?.trim() || fb`: trimmed string if present and nonempty
after trimming, else the fallback. -/
def trimmedOr (o : Option String) (fb : String) : String :=
  match o with
  | some s => if jsTrim s = "" then fb else jsTrim s
  | none => fb

/-- `toSummary`: `source.snippet?.trim() || fallback.trim() || "No summary
available."`, truncated to 1500 characters. -/
def toSummary (s : SearchResult) (fallback : String) : String :=
  jsSlice (trimmedOr s.snippet (trimmedOr (some fallback) "No summary available.")) 1500

/-- Fields of one `INSERT` into `topic_news` (id and created_at assigned
by storage). -/
structure TopicNewsInsert where
  topic : String
  source : String
  title : String
  url : String
  summary : String
deriving Repr, DecidableEq

/-- One row of the `topic_news` table; `created_at` is the insert-time
stamp `datetime('now')`, modelled as an integer. -/
structure TopicNewsRow where
  id : Nat
  topic : String
  source : String
  title : String
  url : String
  summary : String
  created_at : Int
deriving Repr, DecidableEq

/-- The SQLite store: `nextId` is the AUTOINCREMENT counter (ids are
assigned from it and it never decreases), `rows` the table contents. -/
structure RepoState where
  nextId : Nat
  rows : List TopicNewsRow
deriving Repr, DecidableEq

/-- Well-formedness of the store: every existing id is below the counter. -/
def RepoState.wf (repo : RepoState) : Prop :=
  ∀ r ∈ repo.rows, r.id < repo.nextId

/-- The row built by the prepared `INSERT` statement. -/
def insertRow (i : TopicNewsInsert) (id : Nat) (now : Int) : TopicNewsRow :=
  ⟨id, i.topic, i.source, i.title, i.url, i.summary, now⟩

/-- `saveMany`: one independent `INSERT` per row, collecting each
`lastInsertRowid` in order. -/
def saveMany (repo : RepoState) (now : Int) : List TopicNewsInsert → RepoState × List Nat
  | [] => (repo, [])
  | i :: rest =>
    let row := insertRow i repo.nextId now
    let repo1 : RepoState := ⟨repo.nextId + 1, repo.rows ++ [row]⟩
    let res := saveMany repo1 now rest
    (res.1, repo.nextId :: res.2)

/-- `getById`: `SELECT ... WHERE id = ? LIMIT 1`. -/
def getById (repo : RepoState) (id : Nat) : Option TopicNewsRow :=
  repo.rows.find? (fun r => r.id == id)

/-- `ORDER BY created_at DESC` as an order on rows. -/
def newerFirst (a b : TopicNewsRow) : Prop :=
  b.created_at ≤ a.created_at

instance : DecidableRel newerFirst := fun a b => Int.decLe _ _

instance : IsTotal TopicNewsRow newerFirst := ⟨fun a b => Int.le_total _ _⟩

instance : IsTrans TopicNewsRow newerFirst := ⟨fun _ _ _ h h2 => Int.le_trans h2 h⟩

/-- `listByTopic`: `WHERE topic = ? ORDER BY created_at DESC LIMIT ?`. -/
def listByTopic (repo : RepoState) (topic : String) (limit : Nat) : List TopicNewsRow :=
  (List.insertionSort newerFirst (repo.rows.filter (fun r => r.topic == topic))).take limit

/-- `listAll`: `ORDER BY created_at DESC LIMIT ?`. -/
def listAll (repo : RepoState) (limit : Nat) : List TopicNewsRow :=
  (List.insertionSort newerFirst repo.rows).take limit

/-- The candidate row derived from one source inside `saveNewsRows`:
skipped (`continue`) when the URL is missing or blank after trimming. -/
def rowToSave (topic answerText : String) (s : SearchResult) : Option TopicNewsInsert :=
  match s.url with
  | none => none
  | some u =>
    if jsTrim u = "" then none
    else some ⟨topic, sourceFromUrl (jsTrim u), trimmedOr s.title "Untitled", jsTrim u,
      toSummary s answerText⟩

/-- The `rowsToSave` accumulation of `saveNewsRows`: first 5 sources,
keeping those with a present, nonempty URL. -/
def rowsToSave (topic answerText : String) (sources : List SearchResult) : List TopicNewsInsert :=
  (sources.take 5).filterMap (rowToSave topic answerText)

/-- `saveNewsRows`: derive the candidate rows, then `topicNewsRepo.saveMany`. -/
def saveNewsRows (repo : RepoState) (now : Int) (topic answerText : String)
    (sources : List SearchResult) : RepoState × List Nat :=
  saveMany repo now (rowsToSave topic answerText sources)

/-- Whether a source contributes a row: URL present and nonempty after trim. -/
def hasUrl (s : SearchResult) : Bool :=
  match s.url with
  | some u => !(jsTrim u == "")
  | none => false

/-- The shared mutable state the tool handlers touch: the search cache and
the SQLite repository. -/
structure ServerState where
  cache : Cache
  repo : RepoState
deriving Repr, DecidableEq

/-- Outcome of the `save_to_db` handler: the cache-miss message telling the
caller to run `search_web` again, or the saved report with the inserted
ids and the rows read back by id. -/
inductive SaveResponse where
  | notFound (result_id : String)
  | saved (insertedIds : List Nat) (savedRows : List TopicNewsRow)
deriving Repr, DecidableEq

/-- The repository effect and response of `save_to_db` on a cache hit:
insert the derived rows, then read each inserted id back via `getById`
(filtering out null reads, as the handler does). -/
def saveHit (repo : RepoState) (now : Int) (topic : Option String)
    (cached : CachedSearchResult) : RepoState × SaveResponse :=
  (((saveNewsRows repo now (trimmedOr topic cached.query) cached.answerText
      cached.sources)).1,
   .saved (saveNewsRows repo now (trimmedOr topic cached.query) cached.answerText
      cached.sources).2
     ((saveNewsRows repo now (trimmedOr topic cached.query) cached.answerText
        cached.sources).2.filterMap
       (fun id => getById (saveNewsRows repo now (trimmedOr topic cached.query)
         cached.answerText cached.sources).1 id)))

/-- The `save_to_db` handler: run `cleanupSearchCache`, look the handle up
in the cache; on a miss report failure, otherwise default the topic to the
cached query (`topic?.trim() || cached.query`), derive and insert the rows,
and read the inserted rows back by id. -/
def saveToDb (st : ServerState) (now : Int) (result_id : String) (topic : Option String) :
    ServerState × SaveResponse :=
  match mapGet (cleanupSearchCache now st.cache) result_id with
  | none => (⟨cleanupSearchCache now st.cache, st.repo⟩, .notFound result_id)
  | some cached =>
    (⟨cleanupSearchCache now st.cache, (saveHit st.repo now topic cached).1⟩,
     (saveHit st.repo now topic cached).2)

/-- The fixed closing sentence of every `search_web` response. -/
def notSavedInstruction : String :=
  "Not saved to SQL. If the user wants this stored, call save_to_db with this result_id."

/-- One line of `renderSources` for the source at (0-based) index `i`. -/
def renderSourceLine (i : Nat) (s : SearchResult) : String :=
  let title := s.title.getD "source"
  let url := s.url.getD ""
  let date := s.date.getD ""
  toString (i + 1) ++ ". " ++ title ++ (if date = "" then "" else " (" ++ date ++ ")")
    ++ (if url = "" then "" else "\n   " ++ url)

def renderSourceLines : Nat → List SearchResult → List String
  | _, [] => []
  | i, s :: rest => renderSourceLine i s :: renderSourceLines (i + 1) rest

/-- `renderSources`: first 5 sources, one numbered line each, joined by
newlines. -/
def renderSources (sources : List SearchResult) : String :=
  String.intercalate "\n" (renderSourceLines 0 (sources.take 5))

/-- The cache effect of the `search_web` handler: `searchCache.set`
followed by `cleanupSearchCache()`. -/
def cachePut (cache : Cache) (resultId query answerText : String)
    (sources : List SearchResult) (now : Int) : Cache :=
  cleanupSearchCache now (mapSet cache resultId ⟨query, answerText, sources, now⟩)

/-- The text blocks of the `search_web` response, in order. -/
structure SearchResponse where
  parts : List String
deriving Repr, DecidableEq

/-- The `search_web` handler after the external fetch returned
`answerText` and `sources`, with the fresh `randomUUID` as `resultId`:
cache the result, run cleanup, and assemble the response parts. -/
def searchWeb (st : ServerState) (now : Int) (resultId query answerText : String)
    (sources : List SearchResult) : ServerState × SearchResponse :=
  let topSources := renderSources sources
  let cache := cachePut st.cache resultId query answerText sources now
  let parts := ["result_id: " ++ resultId, answerText]
    ++ (if topSources = "" then [] else ["Sources:\n" ++ topSources])
    ++ [notSavedInstruction]
  (⟨cache, st.repo⟩, ⟨parts⟩)

/-- A streamed message chunk's `content`: a bare string, a block list
(each block's `text` field when it is a string), or anything else. -/
inductive ChunkContent where
  | str (s : String)
  | blocks (l : List (Option String))
  | other
deriving Repr, DecidableEq

/-- `extractChunkText`: the string itself, or the concatenation of the
string `text` fields of the blocks, else empty. -/
def extractChunkText : ChunkContent → String
  | .str s => s
  | .blocks l => l.foldl (fun acc b => match b with | some t => acc ++ t | none => acc) ""
  | .other => ""

/-- One `[messageChunk, metadata]` pair of the stream: the chunk content
and `metadata?.langgraph_node`. -/
structure StreamChunk where
  content : ChunkContent
  node : Option String
deriving Repr, DecidableEq

/-- The `streamed` accumulator of `runTurn`: chunks not from the `model`
node are skipped, empty extracted text is skipped, the rest is
concatenated in arrival order. -/
def runTurnStreamed (chunks : List StreamChunk) : String :=
  chunks.foldl (fun acc c =>
    if c.node = some "model" then
      if extractChunkText c.content = "" then acc
      else acc ++ extractChunkText c.content
    else acc) ""

/-- The final write of `runTurn`: a newline after streamed text, or the
distinct no-text marker when nothing was streamed. -/
def runTurnReport (chunks : List StreamChunk) : String :=
  if runTurnStreamed chunks = "" then "(no assistant text returned)\n" else "\n"

/-! ### Helper lemmas -/

lemma string_foldl_append (l : List String) (a b : String) :
    l.foldl (fun x y => x ++ y) (a ++ b) = a ++ l.foldl (fun x y => x ++ y) b := by
  induction l generalizing b with
  | nil => rfl
  | cons s rest ih =>
    simp only [List.foldl_cons, String.append_assoc]
    exact ih (b ++ s)

lemma string_join_nil : String.join [] = "" := rfl

lemma string_join_cons (s : String) (l : List String) :
    String.join (s :: l) = s ++ String.join l := by
  show (s :: l).foldl (fun x y => x ++ y) "" = s ++ l.foldl (fun x y => x ++ y) ""
  rw [List.foldl_cons]
  have h0 : ("" : String) ++ s = s ++ "" := by
    rw [String.empty_append, String.append_empty]
  rw [h0, string_foldl_append]

lemma extractChunkText_blocks_ne_nil (l : List (Option String)) :
    extractChunkText (.blocks l) =
      l.foldl (fun acc b => match b with | some t => acc ++ t | none => acc) "" := rfl

/-- The streamed accumulator equals the join of the extracted texts of the
model-node chunks, for any starting accumulator. -/
lemma runTurn_foldl_eq (chunks : List StreamChunk) (acc : String) :
    chunks.foldl (fun acc c =>
      if c.node = some "model" then
        if extractChunkText c.content = "" then acc
        else acc ++ extractChunkText c.content
      else acc) acc =
    acc ++ String.join ((chunks.filter (fun c => c.node == some "model")).map
      (fun c => extractChunkText c.content)) := by
  induction chunks generalizing acc with
  | nil => simp [string_join_nil]
  | cons c rest ih =>
    simp only [List.foldl_cons, List.filter_cons]
    by_cases h : c.node = some "model"
    · simp only [if_pos h, beq_iff_eq, h, if_true, List.map_cons, string_join_cons]
      by_cases ht : extractChunkText c.content = ""
      · simp only [ht, eq_self_iff_true, if_true, String.empty_append]
        exact ih acc
      · simp only [if_neg ht]
        rw [ih (acc ++ extractChunkText c.content), String.append_assoc]
    · have hb : (c.node == some "model") = false := by
        simp [beq_iff_eq, h]
      simp only [if_neg h, hb, Bool.false_eq_true, if_false]
      exact ih acc

end SimpleAgent

namespace SimpleAgent

/-! ### Claims about the CLI streaming turn (C9) -/

/-- C9: In streaming mode, for every turn, only text fragments produced by
the model node are surfaced, concatenated in arrival order (skipping empty
fragments changes nothing), and a turn whose final concatenation is empty
is reported with the distinct "(no assistant text returned)" marker. -/
theorem c9_streaming_model_node_only (chunks : List StreamChunk) :
    runTurnStreamed chunks =
      String.join ((chunks.filter (fun c => c.node == some "model")).map
        (fun c => extractChunkText c.content)) ∧
    (runTurnReport chunks = "(no assistant text returned)\n" ↔
      runTurnStreamed chunks = "") ∧
    (runTurnStreamed chunks ≠ "" → runTurnReport chunks = "\n") := by
  refine ⟨?_, ?_, ?_⟩
  · have h := runTurn_foldl_eq chunks ""
    unfold runTurnStreamed
    rw [h, String.empty_append]
  · unfold runTurnReport
    by_cases h : runTurnStreamed chunks = ""
    · simp [h]
    · simp only [if_neg h]
      constructor
      · intro hcontra
        exact absurd hcontra (by decide)
      · intro hc
        exact absurd hc h
  · intro h
    unfold runTurnReport
    simp [h]

/-! ### Claims about the repository (C5, C7) -/

/-- C7: `listByTopic(topic, limit)` returns at most `limit` rows, every
returned row has exactly the queried topic, and the rows are ordered by
non-increasing creation time. -/
theorem c7_listByTopic_bounded_filtered_sorted (repo : RepoState) (topic : String)
    (limit : Nat) :
    (listByTopic repo topic limit).length ≤ limit ∧
    (∀ r ∈ listByTopic repo topic limit, r.topic = topic) ∧
    (listByTopic repo topic limit).Pairwise (fun a b => b.created_at ≤ a.created_at) := by
  refine ⟨?_, ?_, ?_⟩
  · exact List.length_take_le _ _
  · intro r hr
    have h1 : r ∈ List.insertionSort newerFirst
        (repo.rows.filter (fun r => r.topic == topic)) :=
      (List.take_sublist _ _).subset hr
    have h2 : r ∈ repo.rows.filter (fun r => r.topic == topic) :=
      (List.perm_insertionSort newerFirst _).subset h1
    have h3 := List.of_mem_filter h2
    exact beq_iff_eq.mp h3
  · have hs : List.Sorted newerFirst (List.insertionSort newerFirst
        (repo.rows.filter (fun r => r.topic == topic))) :=
      List.sorted_insertionSort newerFirst _
    have hp : (listByTopic repo topic limit).Pairwise newerFirst :=
      hs.sublist (List.take_sublist _ _)
    exact hp.imp (fun h => h)

lemma find?_append_none {α} (p : α → Bool) (l1 l2 : List α)
    (h : ∀ x ∈ l1, p x = false) :
    List.find? p (l1 ++ l2) = List.find? p l2 := by
  rw [List.find?_append]
  have : List.find? p l1 = none := List.find?_eq_none.mpr (by
    intro x hx
    simp [h x hx])
  rw [this]
  rfl

/-- `saveMany` leaves the id counter at `nextId + N`, appends the built
rows in order, and returns the ids `nextId, nextId+1, ...`. -/
lemma saveMany_spec (now : Int) : ∀ (inserts : List TopicNewsInsert) (repo : RepoState),
    (saveMany repo now inserts).1.nextId = repo.nextId + inserts.length ∧
    (saveMany repo now inserts).1.rows = repo.rows ++
      ((List.range' repo.nextId inserts.length).zip inserts).map
        (fun p => insertRow p.2 p.1 now) ∧
    (saveMany repo now inserts).2 = List.range' repo.nextId inserts.length
  | [], repo => by simp [saveMany]
  | i :: rest, repo => by
    have ih := saveMany_spec now rest ⟨repo.nextId + 1, repo.rows ++ [insertRow i repo.nextId now]⟩
    simp only [saveMany] at ih ⊢
    have hr : List.range' repo.nextId (i :: rest).length =
        repo.nextId :: List.range' (repo.nextId + 1) rest.length := rfl
    rw [hr]
    refine ⟨?_, ?_, ?_⟩
    · rw [ih.1]
      simp only [List.length_cons]
      omega
    · rw [ih.2.1]
      simp [List.zip_cons_cons, List.map_cons, List.append_assoc]
    · rw [ih.2.2]

/-- Ids below the current counter read back unchanged after `saveMany`. -/
lemma getById_saveMany_old (now : Int) : ∀ (inserts : List TopicNewsInsert)
    (repo : RepoState) (id : Nat), id < repo.nextId →
    getById (saveMany repo now inserts).1 id = getById repo id
  | [], repo, id, _ => rfl
  | i :: rest, repo, id, hid => by
    simp only [saveMany]
    have step : getById ⟨repo.nextId + 1, repo.rows ++ [insertRow i repo.nextId now]⟩ id
        = getById repo id := by
      unfold getById
      simp only []
      rw [List.find?_append]
      cases hf : List.find? (fun r => r.id == id) repo.rows with
      | some r => rfl
      | none =>
        show (List.find? (fun r => r.id == id) [insertRow i repo.nextId now]) = none
        apply List.find?_eq_none.mpr
        intro x hx
        simp only [List.mem_singleton] at hx
        subst hx
        simp [insertRow]
        omega
    rw [getById_saveMany_old now rest _ id (by simp; omega), step]

/-- Each id returned by `saveMany` retrieves, via `getById`, exactly the
row built from the corresponding insert. -/
lemma saveMany_getById (now : Int) : ∀ (inserts : List TopicNewsInsert)
    (repo : RepoState), repo.wf →
    ∀ p ∈ ((saveMany repo now inserts).2).zip inserts,
      getById (saveMany repo now inserts).1 p.1 = some (insertRow p.2 p.1 now)
  | [], _, _ => by simp [saveMany]
  | i :: rest, repo, hwf => by
    intro p hp
    simp only [saveMany] at hp ⊢
    set repo1 : RepoState := ⟨repo.nextId + 1, repo.rows ++ [insertRow i repo.nextId now]⟩ with hrepo1
    rw [List.zip_cons_cons] at hp
    rcases List.mem_cons.mp hp with hp | hp
    · subst hp
      have h1 : getById (saveMany repo1 now rest).1 repo.nextId
          = getById repo1 repo.nextId :=
        getById_saveMany_old now rest repo1 repo.nextId (by simp [hrepo1])
      rw [h1]
      unfold getById
      rw [hrepo1]
      simp only []
      rw [find?_append_none]
      · simp [List.find?, insertRow]
      · intro x hx
        have := hwf x hx
        simp
        omega
    · have hwf1 : repo1.wf := by
        intro r hr
        rw [hrepo1] at hr ⊢
        simp only [List.mem_append, List.mem_singleton] at hr
        rcases hr with hr | hr
        · have := hwf r hr
          simp
          omega
        · subst hr
          simp [insertRow]
      exact saveMany_getById now rest repo1 hwf1 p hp

/-- C5: on a well-formed store, `saveMany` on N rows returns exactly N
distinct, strictly increasing ids assigned in insertion order, and each id
retrieves the corresponding inserted row via `getById`. -/
theorem c5_saveMany_ids_increasing_retrievable (repo : RepoState) (now : Int)
    (inserts : List TopicNewsInsert) (hwf : repo.wf) :
    (saveMany repo now inserts).2.length = inserts.length ∧
    (saveMany repo now inserts).2.Pairwise (· < ·) ∧
    (saveMany repo now inserts).2.Nodup ∧
    (∀ p ∈ ((saveMany repo now inserts).2).zip inserts,
      getById (saveMany repo now inserts).1 p.1 = some (insertRow p.2 p.1 now)) := by
  have hspec := saveMany_spec now inserts repo
  have hpw : (saveMany repo now inserts).2.Pairwise (· < ·) := by
    rw [hspec.2.2]
    exact List.pairwise_lt_range' _ _
  refine ⟨?_, hpw, hpw.nodup, saveMany_getById now inserts repo hwf⟩
  rw [hspec.2.2]
  simp

/-- C5 witness: two inserts into the empty store. -/
theorem c5_saveMany_ids_increasing_retrievable_witness :
    RepoState.wf ⟨1, []⟩ ∧
    ((saveMany ⟨1, []⟩ 5 [⟨"t", "s", "ti", "u", "su"⟩,
        ⟨"t2", "s2", "ti2", "u2", "su2"⟩]).2.length =
      ([⟨"t", "s", "ti", "u", "su"⟩, ⟨"t2", "s2", "ti2", "u2", "su2"⟩] :
        List TopicNewsInsert).length ∧
     (saveMany ⟨1, []⟩ 5 [⟨"t", "s", "ti", "u", "su"⟩,
        ⟨"t2", "s2", "ti2", "u2", "su2"⟩]).2.Pairwise (· < ·) ∧
     (saveMany ⟨1, []⟩ 5 [⟨"t", "s", "ti", "u", "su"⟩,
        ⟨"t2", "s2", "ti2", "u2", "su2"⟩]).2.Nodup ∧
     (∀ p ∈ ((saveMany ⟨1, []⟩ 5 [⟨"t", "s", "ti", "u", "su"⟩,
          ⟨"t2", "s2", "ti2", "u2", "su2"⟩]).2).zip
        [⟨"t", "s", "ti", "u", "su"⟩, ⟨"t2", "s2", "ti2", "u2", "su2"⟩],
       getById (saveMany ⟨1, []⟩ 5 [⟨"t", "s", "ti", "u", "su"⟩,
          ⟨"t2", "s2", "ti2", "u2", "su2"⟩]).1 p.1 = some (insertRow p.2 p.1 5))) :=
  ⟨(by intro r hr; cases hr),
    c5_saveMany_ids_increasing_retrievable ⟨1, []⟩ 5
      [⟨"t", "s", "ti", "u", "su"⟩, ⟨"t2", "s2", "ti2", "u2", "su2"⟩]
      (by intro r hr; cases hr)⟩

/-! ### Cache lemmas -/

lemma mapGet_eq_none_iff (cache : Cache) (k : String) :
    mapGet cache k = none ↔ ∀ p ∈ cache, p.1 ≠ k := by
  unfold mapGet
  rw [Option.map_eq_none', List.find?_eq_none]
  constructor
  · intro h p hp
    have := h p hp
    simpa using this
  · intro h p hp
    simpa using h p hp

lemma ttlSurvivors_sublist (now : Int) (cache : Cache) :
    (ttlSurvivors now cache).Sublist cache :=
  List.filter_sublist _

lemma mem_ttlSurvivors (now : Int) (cache : Cache) (p : String × CachedSearchResult) :
    p ∈ ttlSurvivors now cache ↔
      p ∈ cache ∧ now - p.2.createdAt ≤ SEARCH_CACHE_TTL_MS := by
  unfold ttlSurvivors
  rw [List.mem_filter]
  simp

lemma cleanup_sublist (now : Int) (cache : Cache) :
    (cleanupSearchCache now cache).Sublist (ttlSurvivors now cache) := by
  unfold cleanupSearchCache
  split
  · exact List.Sublist.refl _
  · exact List.filter_sublist _

lemma mapGet_cleanup_none (now : Int) (cache : Cache) (k : String)
    (habs : mapGet cache k = none) :
    mapGet (cleanupSearchCache now cache) k = none := by
  rw [mapGet_eq_none_iff] at habs ⊢
  intro p hp
  exact habs p (((cleanup_sublist now cache).trans (ttlSurvivors_sublist now cache)).subset hp)

/-- On a cache miss, the handler reports the failure and leaves the
repository untouched. -/
lemma saveToDb_of_none (st : ServerState) (now : Int) (rid : String)
    (topic : Option String)
    (hnone : mapGet (cleanupSearchCache now st.cache) rid = none) :
    saveToDb st now rid topic =
      (⟨cleanupSearchCache now st.cache, st.repo⟩, .notFound rid) := by
  unfold saveToDb
  rw [hnone]

/-- C1: for every handle absent from the cache at save time, `save_to_db`
inserts no row into the repository and returns the failure response
telling the caller to search again. -/
theorem c1_save_unknown_handle_no_insert (st : ServerState) (now : Int)
    (rid : String) (topic : Option String)
    (habs : mapGet st.cache rid = none) :
    (saveToDb st now rid topic).1.repo = st.repo ∧
    (saveToDb st now rid topic).2 = .notFound rid := by
  rw [saveToDb_of_none st now rid topic (mapGet_cleanup_none now st.cache rid habs)]
  exact ⟨rfl, rfl⟩

/-- C1 witness: a concrete miss on the empty cache. -/
theorem c1_save_unknown_handle_no_insert_witness :
    mapGet [] "h1" = none ∧
    ((saveToDb ⟨[], ⟨1, []⟩⟩ 0 "h1" none).1.repo = (⟨1, []⟩ : RepoState) ∧
      (saveToDb ⟨[], ⟨1, []⟩⟩ 0 "h1" none).2 = .notFound "h1") :=
  ⟨rfl, c1_save_unknown_handle_no_insert ⟨[], ⟨1, []⟩⟩ 0 "h1" none rfl⟩

/-- A cached entry whose age strictly exceeds the TTL. -/
def expiredEntry : CachedSearchResult := ⟨"q", "a", [], 0⟩

/-- C3 counterexample: the raw map read (`searchCache.get`) performs no
lazy expiry check — on an entry whose age exceeds the TTL it still
returns the stale entry instead of treating it as absent. -/
theorem c3_counterexample :
    (1800001 : Int) - expiredEntry.createdAt > SEARCH_CACHE_TTL_MS ∧
    mapGet [("h1", expiredEntry)] "h1" = some expiredEntry := by
  constructor
  · decide
  · rfl

/-- C3 amended: expiry on the save path is enforced solely by the explicit
`cleanupSearchCache` pass, which the handler runs immediately before its
lookup: the pass physically removes an entry older than the TTL, so the
subsequent read treats the handle as absent and the save reports failure
without touching the repository. -/
theorem c3_expired_entry_dropped_by_cleanup_before_read (cache : Cache) (now : Int)
    (rid : String) (e : CachedSearchResult) (repo : RepoState) (topic : Option String)
    (hnodup : (cache.map Prod.fst).Nodup)
    (hget : mapGet cache rid = some e)
    (hexp : now - e.createdAt > SEARCH_CACHE_TTL_MS) :
    mapGet (cleanupSearchCache now cache) rid = none ∧
    (saveToDb ⟨cache, repo⟩ now rid topic).2 = .notFound rid ∧
    (saveToDb ⟨cache, repo⟩ now rid topic).1.repo = repo := by
  have hpair : (rid, e) ∈ cache := by
    unfold mapGet at hget
    rcases Option.map_eq_some'.mp hget with ⟨p, hfind, hsnd⟩
    have hfst : p.1 = rid := by
      have := List.find?_some hfind
      simpa using this
    have hmem := List.mem_of_find?_eq_some hfind
    have : p = (rid, e) := Prod.ext hfst hsnd
    rwa [this] at hmem
  have hnone : mapGet (cleanupSearchCache now cache) rid = none := by
    rw [mapGet_eq_none_iff]
    intro p hp hfst
    have hpl1 : p ∈ ttlSurvivors now cache := (cleanup_sublist now cache).subset hp
    have hpc : p ∈ cache := (ttlSurvivors_sublist now cache).subset hpl1
    have hpe : p = (rid, e) :=
      List.inj_on_of_nodup_map hnodup hpc hpair (by simpa using hfst)
    have hfresh := ((mem_ttlSurvivors now cache p).mp hpl1).2
    rw [hpe] at hfresh
    simp only at hfresh
    omega
  have hred := saveToDb_of_none ⟨cache, repo⟩ now rid topic (by simpa using hnone)
  rw [hred]
  exact ⟨hnone, rfl, rfl⟩

/-- C3 amended witness: the concrete expired entry is dropped and the save
reports failure. -/
theorem c3_expired_entry_dropped_witness :
    ((([("h1", expiredEntry)] : Cache).map Prod.fst).Nodup ∧
      mapGet [("h1", expiredEntry)] "h1" = some expiredEntry ∧
      (1800001 : Int) - expiredEntry.createdAt > SEARCH_CACHE_TTL_MS) ∧
    (mapGet (cleanupSearchCache 1800001 [("h1", expiredEntry)]) "h1" = none ∧
      (saveToDb ⟨[("h1", expiredEntry)], ⟨1, []⟩⟩ 1800001 "h1" none).2 = .notFound "h1" ∧
      (saveToDb ⟨[("h1", expiredEntry)], ⟨1, []⟩⟩ 1800001 "h1" none).1.repo = ⟨1, []⟩) :=
  ⟨⟨by decide, rfl, by decide⟩,
    c3_expired_entry_dropped_by_cleanup_before_read [("h1", expiredEntry)] 1800001 "h1"
      expiredEntry ⟨1, []⟩ none (by decide) rfl (by decide)⟩

/-! ### The capacity pass: trimmed entries are the oldest-created -/

/-- C2: `cleanup(now)` first removes every entry older than the TTL; the
result is an in-order sublist of the TTL survivors whose length is capped
at the capacity (exactly `min` of survivor count and capacity), every
remaining entry is fresh, and any TTL survivor that was trimmed is no
newer than every entry that was kept. -/
theorem c2_cleanup_ttl_then_capacity (cache : Cache) (now : Int)
    (hnodup : (cache.map Prod.fst).Nodup) :
    (cleanupSearchCache now cache).Sublist (ttlSurvivors now cache) ∧
    (cleanupSearchCache now cache).length =
      min (ttlSurvivors now cache).length SEARCH_CACHE_MAX_ITEMS ∧
    (cleanupSearchCache now cache).length ≤ SEARCH_CACHE_MAX_ITEMS ∧
    (∀ p ∈ cleanupSearchCache now cache, now - p.2.createdAt ≤ SEARCH_CACHE_TTL_MS) ∧
    (∀ p ∈ ttlSurvivors now cache, p ∉ cleanupSearchCache now cache →
      ∀ q ∈ cleanupSearchCache now cache, p.2.createdAt ≤ q.2.createdAt) := by
  have hfreshAll : ∀ p ∈ cleanupSearchCache now cache,
      now - p.2.createdAt ≤ SEARCH_CACHE_TTL_MS := by
    intro p hp
    exact ((mem_ttlSurvivors now cache p).mp ((cleanup_sublist now cache).subset hp)).2
  by_cases hle : (ttlSurvivors now cache).length ≤ SEARCH_CACHE_MAX_ITEMS
  · have hres : cleanupSearchCache now cache = ttlSurvivors now cache := by
      unfold cleanupSearchCache
      rw [if_pos hle]
    refine ⟨hres ▸ List.Sublist.refl _, ?_, ?_, hfreshAll, ?_⟩
    · rw [hres, Nat.min_def, if_pos hle]
    · rw [hres]
      exact hle
    · intro p hp hpnot
      rw [hres] at hpnot
      exact absurd hp hpnot
  · have hres : cleanupSearchCache now cache = (ttlSurvivors now cache).filter
        (fun p => decide (p.1 ∉ removedKeys (ttlSurvivors now cache))) := by
      unfold cleanupSearchCache
      rw [if_neg hle]
    set l1 := ttlSurvivors now cache with hl1def
    set srt := List.insertionSort byCreatedAt l1 with hsrtdef
    set k := l1.length - SEARCH_CACHE_MAX_ITEMS with hkdef
    have hperm : srt.Perm l1 := List.perm_insertionSort byCreatedAt l1
    have hsorted : List.Sorted byCreatedAt srt := List.sorted_insertionSort byCreatedAt l1
    have hnodupl1 : (l1.map Prod.fst).Nodup :=
      List.Nodup.sublist ((ttlSurvivors_sublist now cache).map Prod.fst) hnodup
    have hnodupsrt : (srt.map Prod.fst).Nodup :=
      ((hperm.map Prod.fst).nodup_iff).mpr hnodupl1
    have hsrtnodup : srt.Nodup := List.Nodup.of_map Prod.fst hnodupsrt
    have hrk : removedKeys l1 = (srt.take k).map Prod.fst := rfl
    have hmemP : ∀ p ∈ srt, (p.1 ∈ removedKeys l1 ↔ p ∈ srt.take k) := by
      intro p hps
      rw [hrk]
      constructor
      · intro hin
        rcases List.mem_map.mp hin with ⟨r, hr, hr1⟩
        have hrs : r ∈ srt := (List.take_sublist _ _).subset hr
        have : r = p := List.inj_on_of_nodup_map hnodupsrt hrs hps hr1
        rwa [this] at hr
      · intro hp
        exact List.mem_map_of_mem Prod.fst hp
    have hfiltake : (srt.take k).filter
        (fun p => decide (p.1 ∉ removedKeys l1)) = [] := by
      apply List.filter_eq_nil_iff.mpr
      intro p hp
      have hps : p ∈ srt := (List.take_sublist _ _).subset hp
      simp only [decide_eq_true_eq]
      intro hcontra
      exact hcontra ((hmemP p hps).mpr hp)
    have hfildrop : (srt.drop k).filter
        (fun p => decide (p.1 ∉ removedKeys l1)) = srt.drop k := by
      apply List.filter_eq_self.mpr
      intro p hp
      have hps : p ∈ srt := (List.drop_sublist _ _).subset hp
      simp only [decide_eq_true_eq]
      intro hcontra
      have htake : p ∈ srt.take k := (hmemP p hps).mp hcontra
      exact (List.disjoint_take_drop hsrtnodup (le_refl k)) htake hp
    have hpermres : (cleanupSearchCache now cache).Perm (srt.drop k) := by
      rw [hres]
      have h1 : (l1.filter (fun p => decide (p.1 ∉ removedKeys l1))).Perm
          (srt.filter (fun p => decide (p.1 ∉ removedKeys l1))) :=
        (hperm.filter _).symm
      have h2 : srt.filter (fun p => decide (p.1 ∉ removedKeys l1)) = srt.drop k := by
        conv_lhs => rw [← List.take_append_drop k srt]
        rw [List.filter_append, hfiltake, hfildrop, List.nil_append]
      exact h2 ▸ h1
    have hlen : (cleanupSearchCache now cache).length = SEARCH_CACHE_MAX_ITEMS := by
      rw [hpermres.length_eq, List.length_drop, hperm.length_eq]
      omega
    refine ⟨hres ▸ List.filter_sublist _, ?_, ?_, hfreshAll, ?_⟩
    · rw [hlen, Nat.min_def, if_neg hle]
    · rw [hlen]
    · intro p hpl1 hpnot q hq
      have hP : ¬ (decide (p.1 ∉ removedKeys l1) = true) := by
        intro hcontra
        exact hpnot (hres ▸ List.mem_filter.mpr ⟨hpl1, hcontra⟩)
      have hpin : p.1 ∈ removedKeys l1 := by
        by_contra hc
        exact hP (by simpa using hc)
      have hps : p ∈ srt := hperm.mem_iff.mpr hpl1
      have hptake : p ∈ srt.take k := (hmemP p hps).mp hpin
      have hqdrop : q ∈ srt.drop k := hpermres.subset hq
      have hpairwise : List.Pairwise byCreatedAt (srt.take k ++ srt.drop k) := by
        rw [List.take_append_drop]
        exact hsorted
      exact (List.pairwise_append.mp hpairwise).2.2 p hptake q hqdrop

/-- C2 witness: a two-entry cache where the first entry is past the TTL. -/
theorem c2_cleanup_ttl_then_capacity_witness :
    ((([("a", ⟨"q", "ans", [], 0⟩), ("b", ⟨"q2", "ans2", [], 100⟩)] : Cache).map
        Prod.fst).Nodup) ∧
    ((cleanupSearchCache 1800050
        [("a", ⟨"q", "ans", [], 0⟩), ("b", ⟨"q2", "ans2", [], 100⟩)]).Sublist
      (ttlSurvivors 1800050
        [("a", ⟨"q", "ans", [], 0⟩), ("b", ⟨"q2", "ans2", [], 100⟩)]) ∧
      (cleanupSearchCache 1800050
          [("a", ⟨"q", "ans", [], 0⟩), ("b", ⟨"q2", "ans2", [], 100⟩)]).length =
        min (ttlSurvivors 1800050
          [("a", ⟨"q", "ans", [], 0⟩), ("b", ⟨"q2", "ans2", [], 100⟩)]).length
          SEARCH_CACHE_MAX_ITEMS ∧
      (cleanupSearchCache 1800050
          [("a", ⟨"q", "ans", [], 0⟩), ("b", ⟨"q2", "ans2", [], 100⟩)]).length ≤
        SEARCH_CACHE_MAX_ITEMS ∧
      (∀ p ∈ cleanupSearchCache 1800050
          [("a", ⟨"q", "ans", [], 0⟩), ("b", ⟨"q2", "ans2", [], 100⟩)],
        (1800050 : Int) - p.2.createdAt ≤ SEARCH_CACHE_TTL_MS) ∧
      (∀ p ∈ ttlSurvivors 1800050
          [("a", ⟨"q", "ans", [], 0⟩), ("b", ⟨"q2", "ans2", [], 100⟩)],
        p ∉ cleanupSearchCache 1800050
          [("a", ⟨"q", "ans", [], 0⟩), ("b", ⟨"q2", "ans2", [], 100⟩)] →
        ∀ q ∈ cleanupSearchCache 1800050
          [("a", ⟨"q", "ans", [], 0⟩), ("b", ⟨"q2", "ans2", [], 100⟩)],
          p.2.createdAt ≤ q.2.createdAt)) :=
  ⟨by decide,
    c2_cleanup_ttl_then_capacity
      [("a", ⟨"q", "ans", [], 0⟩), ("b", ⟨"q2", "ans2", [], 100⟩)] 1800050 (by decide)⟩

/-! ### A freshly put entry survives the cleanup triggered by put -/

lemma orderedInsert_append_max (x a : String × CachedSearchResult)
    (s : List (String × CachedSearchResult)) (h : byCreatedAt a x) :
    List.orderedInsert byCreatedAt a (s ++ [x]) =
      List.orderedInsert byCreatedAt a s ++ [x] := by
  induction s with
  | nil =>
    simp only [List.nil_append, List.orderedInsert]
    rw [if_pos h]
    rfl
  | cons b s ih =>
    simp only [List.cons_append, List.orderedInsert, List.append_eq]
    by_cases hab : byCreatedAt a b
    · rw [if_pos hab, if_pos hab]
      rfl
    · rw [if_neg hab, if_neg hab, ih, List.cons_append]

lemma insertionSort_append_max : ∀ (l : List (String × CachedSearchResult))
    (x : String × CachedSearchResult), (∀ y ∈ l, byCreatedAt y x) →
    List.insertionSort byCreatedAt (l ++ [x]) =
      List.insertionSort byCreatedAt l ++ [x]
  | [], x, _ => rfl
  | a :: l, x, h => by
    simp only [List.cons_append, List.insertionSort, List.append_eq]
    rw [insertionSort_append_max l x (fun y hy => h y (List.mem_cons_of_mem a hy))]
    exact orderedInsert_append_max x a _ (h a (List.mem_cons_self a l))

/-- After `searchCache.set` of a fresh handle followed by
`cleanupSearchCache()`, the handle still maps to the stored result: the
new entry is the youngest, so neither the TTL pass nor the oldest-first
capacity pass removes it. -/
lemma mapGet_cachePut (cache : Cache) (now : Int) (rid q a : String)
    (srcs : List SearchResult)
    (hfresh : rid ∉ cache.map Prod.fst)
    (hages : ∀ p ∈ cache, p.2.createdAt ≤ now) :
    mapGet (cachePut cache rid q a srcs now) rid =
      some ⟨q, a, srcs, now⟩ := by
  have hkeys : ∀ p ∈ cache, (p.1 == rid) = false := by
    intro p hp
    have : p.1 ≠ rid := by
      intro hcontra
      exact hfresh (hcontra ▸ List.mem_map_of_mem Prod.fst hp)
    simpa using this
  have hset : mapSet cache rid ⟨q, a, srcs, now⟩ =
      cache ++ [(rid, ⟨q, a, srcs, now⟩)] := by
    unfold mapSet
    rw [if_neg]
    simp only [List.any_eq_true, not_exists, not_and]
    intro p hp
    simp [hkeys p hp]
  have hl1 : ttlSurvivors now (cache ++ [(rid, ⟨q, a, srcs, now⟩)]) =
      ttlSurvivors now cache ++ [(rid, ⟨q, a, srcs, now⟩)] := by
    unfold ttlSurvivors
    rw [List.filter_append]
    congr 1
    simp [SEARCH_CACHE_TTL_MS]
  have hfrontkeys : ∀ p ∈ ttlSurvivors now cache, (fun r => r.1 == rid) p = false :=
    fun p hp => hkeys p ((ttlSurvivors_sublist now cache).subset hp)
  unfold cachePut
  rw [hset]
  unfold cleanupSearchCache
  rw [hl1]
  set front := ttlSurvivors now cache with hfrontdef
  set x : String × CachedSearchResult := (rid, ⟨q, a, srcs, now⟩) with hxdef
  by_cases hle : (front ++ [x]).length ≤ SEARCH_CACHE_MAX_ITEMS
  · rw [if_pos hle]
    unfold mapGet
    rw [find?_append_none _ _ _ hfrontkeys]
    simp [List.find?, hxdef]
  · rw [if_neg hle]
    have hyfront : ∀ y ∈ front, byCreatedAt y x := by
      intro y hy
      exact hages y ((ttlSurvivors_sublist now cache).subset hy)
    have hsort : List.insertionSort byCreatedAt (front ++ [x]) =
        List.insertionSort byCreatedAt front ++ [x] :=
      insertionSort_append_max front x hyfront
    have hlenfront : (List.insertionSort byCreatedAt front).length = front.length :=
      (List.perm_insertionSort byCreatedAt front).length_eq
    have hk : (front ++ [x]).length - SEARCH_CACHE_MAX_ITEMS ≤
        (List.insertionSort byCreatedAt front).length := by
      rw [hlenfront]
      simp only [List.length_append, List.length_singleton] at hle ⊢
      have : 0 < SEARCH_CACHE_MAX_ITEMS := by
        unfold SEARCH_CACHE_MAX_ITEMS
        omega
      omega
    have hrid : rid ∉ removedKeys (front ++ [x]) := by
      unfold removedKeys
      rw [hsort, List.take_append_of_le_length hk]
      intro hin
      rcases List.mem_map.mp hin with ⟨r, hr, hr1⟩
      have hrsrt : r ∈ List.insertionSort byCreatedAt front :=
        (List.take_sublist _ _).subset hr
      have hrfront : r ∈ front :=
        (List.perm_insertionSort byCreatedAt front).subset hrsrt
      have := hkeys r ((ttlSurvivors_sublist now cache).subset hrfront)
      rw [hr1] at this
      simp at this
    have hxfst : x.1 = rid := by rw [hxdef]
    have hfil : (front ++ [x]).filter
        (fun p => decide (p.1 ∉ removedKeys (front ++ [x]))) =
        front.filter (fun p => decide (p.1 ∉ removedKeys (front ++ [x]))) ++ [x] := by
      rw [List.filter_append]
      have hx1 : List.filter (fun p => decide (p.1 ∉ removedKeys (front ++ [x]))) [x]
          = [x] := by
        rw [List.filter_cons]
        rw [if_pos]
        · rfl
        · rw [hxfst]
          simpa using hrid
      rw [hx1]
    rw [hfil]
    unfold mapGet
    rw [find?_append_none]
    · rw [List.find?_cons, hxfst]
      simp [hxdef]
    · intro p hp
      exact hfrontkeys p ((List.filter_sublist _).subset hp)

/-- C6: immediately after `put(r)` under a fresh handle (including the
cleanup that put triggers), `get(h)` returns a value equal to `r` in
query, answer text, and sources. -/
theorem c6_put_then_get_roundtrip (cache : Cache) (now : Int) (rid q a : String)
    (srcs : List SearchResult)
    (hfresh : rid ∉ cache.map Prod.fst)
    (hages : ∀ p ∈ cache, p.2.createdAt ≤ now) :
    mapGet (cachePut cache rid q a srcs now) rid = some ⟨q, a, srcs, now⟩ :=
  mapGet_cachePut cache now rid q a srcs hfresh hages

/-- C6 witness: put then get on the empty cache. -/
theorem c6_put_then_get_roundtrip_witness :
    ("h1" ∉ ([] : Cache).map Prod.fst ∧ ∀ p ∈ ([] : Cache), p.2.createdAt ≤ (7 : Int)) ∧
    mapGet (cachePut [] "h1" "q" "ans" [] 7) "h1" = some ⟨"q", "ans", [], 7⟩ :=
  ⟨⟨by decide, by intro p hp; cases hp⟩,
    c6_put_then_get_roundtrip [] 7 "h1" "q" "ans" [] (by decide)
      (by intro p hp; cases hp)⟩

/-! ### The search handler (C8) -/

lemma length_renderSourceLines : ∀ (i : Nat) (l : List SearchResult),
    (renderSourceLines i l).length = l.length
  | _, [] => rfl
  | i, s :: rest => by
    simp only [renderSourceLines, List.length_cons]
    rw [length_renderSourceLines (i + 1) rest]

/-- C8: the search tool stores the fetched answer and sources in the
cache under the fresh handle, returns the handle line, the answer text,
at most 5 rendered source lines, and the explicit not-persisted
instruction, and leaves the repository untouched. -/
theorem c8_search_caches_never_writes_repo (st : ServerState) (now : Int)
    (rid q a : String) (srcs : List SearchResult)
    (hfresh : rid ∉ st.cache.map Prod.fst)
    (hages : ∀ p ∈ st.cache, p.2.createdAt ≤ now) :
    (searchWeb st now rid q a srcs).1.repo = st.repo ∧
    mapGet (searchWeb st now rid q a srcs).1.cache rid = some ⟨q, a, srcs, now⟩ ∧
    ("result_id: " ++ rid) ∈ (searchWeb st now rid q a srcs).2.parts ∧
    a ∈ (searchWeb st now rid q a srcs).2.parts ∧
    notSavedInstruction ∈ (searchWeb st now rid q a srcs).2.parts ∧
    (renderSourceLines 0 (srcs.take 5)).length ≤ 5 := by
  refine ⟨rfl, ?_, ?_, ?_, ?_, ?_⟩
  · show mapGet (cachePut st.cache rid q a srcs now) rid = _
    exact mapGet_cachePut st.cache now rid q a srcs hfresh hages
  · show _ ∈ ["result_id: " ++ rid, a] ++ _ ++ [notSavedInstruction]
    simp
  · show _ ∈ ["result_id: " ++ rid, a] ++ _ ++ [notSavedInstruction]
    simp
  · show _ ∈ ["result_id: " ++ rid, a] ++ _ ++ [notSavedInstruction]
    simp
  · rw [length_renderSourceLines]
    exact List.length_take_le _ _

/-- C8 witness: one concrete search against the empty cache. -/
theorem c8_search_caches_never_writes_repo_witness :
    ("h1" ∉ (⟨[], ⟨1, []⟩⟩ : ServerState).cache.map Prod.fst ∧
      ∀ p ∈ (⟨[], ⟨1, []⟩⟩ : ServerState).cache, p.2.createdAt ≤ (7 : Int)) ∧
    ((searchWeb ⟨[], ⟨1, []⟩⟩ 7 "h1" "q" "ans"
        [⟨some "T", some "https://example.com/a", none, none⟩]).1.repo = ⟨1, []⟩ ∧
      mapGet (searchWeb ⟨[], ⟨1, []⟩⟩ 7 "h1" "q" "ans"
          [⟨some "T", some "https://example.com/a", none, none⟩]).1.cache "h1" =
        some ⟨"q", "ans", [⟨some "T", some "https://example.com/a", none, none⟩], 7⟩ ∧
      ("result_id: " ++ "h1") ∈ (searchWeb ⟨[], ⟨1, []⟩⟩ 7 "h1" "q" "ans"
        [⟨some "T", some "https://example.com/a", none, none⟩]).2.parts ∧
      "ans" ∈ (searchWeb ⟨[], ⟨1, []⟩⟩ 7 "h1" "q" "ans"
        [⟨some "T", some "https://example.com/a", none, none⟩]).2.parts ∧
      notSavedInstruction ∈ (searchWeb ⟨[], ⟨1, []⟩⟩ 7 "h1" "q" "ans"
        [⟨some "T", some "https://example.com/a", none, none⟩]).2.parts ∧
      (renderSourceLines 0
        (([⟨some "T", some "https://example.com/a", none, none⟩] :
          List SearchResult).take 5)).length ≤ 5) :=
  ⟨⟨by decide, by intro p hp; cases hp⟩,
    c8_search_caches_never_writes_repo ⟨[], ⟨1, []⟩⟩ 7 "h1" "q" "ans"
      [⟨some "T", some "https://example.com/a", none, none⟩] (by decide)
      (by intro p hp; cases hp)⟩

/-! ### Row derivation on save (C4, C10) -/

/-- On a cache hit, the handler reduces to `saveHit`. -/
lemma saveToDb_of_some (st : ServerState) (now : Int) (rid : String)
    (topic : Option String) (c : CachedSearchResult)
    (hc : mapGet (cleanupSearchCache now st.cache) rid = some c) :
    saveToDb st now rid topic =
      (⟨cleanupSearchCache now st.cache, (saveHit st.repo now topic c).1⟩,
        (saveHit st.repo now topic c).2) := by
  unfold saveToDb
  rw [hc]

lemma rowToSave_isSome (t a : String) (s : SearchResult) :
    (rowToSave t a s).isSome = hasUrl s := by
  unfold rowToSave hasUrl
  cases s.url with
  | none => rfl
  | some u =>
    by_cases hu : jsTrim u = ""
    · simp [hu]
    · simp [hu]

lemma length_filterMap_isSome {α β : Type} (f : α → Option β) : ∀ l : List α,
    (l.filterMap f).length = (l.filter (fun s => (f s).isSome)).length
  | [] => rfl
  | a :: l => by
    rw [List.filterMap_cons, List.filter_cons]
    cases hf : f a with
    | none => simp [hf, length_filterMap_isSome f l]
    | some b => simp [hf, length_filterMap_isSome f l]

/-- C4 counterexample: a source whose URL is present and nonempty but not
parseable still yields a derived row (with host "unknown") — the claim
that each derived row requires a parseable URL fails on this input. -/
theorem c4_counterexample :
    rowsToSave "t" "a" [⟨none, some "not a url", none, none⟩] =
      [⟨"t", "unknown", "Untitled", "not a url", "a"⟩] ∧
    parseUrlHostname "not a url" = none := by
  constructor
  · rfl
  · rfl

/-- C4 amended: for a present handle, save derives at most 5 candidate
rows from the cached sources, keeping exactly the sources (among the
first 5) whose URL is present and nonempty after trimming — an
unparseable URL is accepted with host "unknown" — defaults the topic to
the original query when no topic is supplied, and writes the derived rows
via the repository with their assigned ids returned. -/
theorem c4_save_derivation_amended (st : ServerState) (now : Int) (rid : String)
    (c : CachedSearchResult)
    (hc : mapGet (cleanupSearchCache now st.cache) rid = some c) :
    (saveToDb st now rid none).1.repo =
      (saveMany st.repo now (rowsToSave c.query c.answerText c.sources)).1 ∧
    (saveToDb st now rid none).2 =
      .saved (saveMany st.repo now (rowsToSave c.query c.answerText c.sources)).2
        ((saveMany st.repo now (rowsToSave c.query c.answerText c.sources)).2.filterMap
          (fun id => getById
            (saveMany st.repo now (rowsToSave c.query c.answerText c.sources)).1 id)) ∧
    (rowsToSave c.query c.answerText c.sources).length =
      ((c.sources.take 5).filter hasUrl).length ∧
    (rowsToSave c.query c.answerText c.sources).length ≤ 5 ∧
    (∀ r ∈ rowsToSave c.query c.answerText c.sources, r.url ≠ "") := by
  have hred := saveToDb_of_some st now rid none c hc
  refine ⟨?_, ?_, ?_, ?_, ?_⟩
  · rw [hred]
    rfl
  · rw [hred]
    rfl
  · unfold rowsToSave
    rw [length_filterMap_isSome]
    congr 1
    apply List.filter_congr
    intro s _
    exact rowToSave_isSome c.query c.answerText s
  · unfold rowsToSave
    exact le_trans (List.length_filterMap_le _ _) (List.length_take_le _ _)
  · intro r hr
    unfold rowsToSave at hr
    rcases List.mem_filterMap.mp hr with ⟨s, _, hf⟩
    unfold rowToSave at hf
    cases hurl : s.url with
    | none =>
      rw [hurl] at hf
      exact absurd hf (by simp)
    | some u =>
      simp only [hurl] at hf
      by_cases hu : jsTrim u = ""
      · rw [if_pos hu] at hf
        exact absurd hf (by simp)
      · rw [if_neg hu] at hf
        have hre := Option.some_inj.mp hf
        rw [← hre]
        simpa using hu

/-- C4 amended witness: a one-source cache hit. -/
theorem c4_save_derivation_amended_witness :
    mapGet (cleanupSearchCache 10
        [("h1", ⟨"q", "ans", [⟨some "T", some "https://example.com/a", none, none⟩], 5⟩)])
      "h1" = some ⟨"q", "ans", [⟨some "T", some "https://example.com/a", none, none⟩], 5⟩ ∧
    ((saveToDb ⟨[("h1", ⟨"q", "ans",
          [⟨some "T", some "https://example.com/a", none, none⟩], 5⟩)], ⟨1, []⟩⟩
        10 "h1" none).1.repo =
      (saveMany ⟨1, []⟩ 10 (rowsToSave "q" "ans"
        [⟨some "T", some "https://example.com/a", none, none⟩])).1 ∧
     (saveToDb ⟨[("h1", ⟨"q", "ans",
          [⟨some "T", some "https://example.com/a", none, none⟩], 5⟩)], ⟨1, []⟩⟩
        10 "h1" none).2 =
      .saved (saveMany ⟨1, []⟩ 10 (rowsToSave "q" "ans"
          [⟨some "T", some "https://example.com/a", none, none⟩])).2
        ((saveMany ⟨1, []⟩ 10 (rowsToSave "q" "ans"
            [⟨some "T", some "https://example.com/a", none, none⟩])).2.filterMap
          (fun id => getById (saveMany ⟨1, []⟩ 10 (rowsToSave "q" "ans"
            [⟨some "T", some "https://example.com/a", none, none⟩])).1 id)) ∧
     (rowsToSave "q" "ans"
        [⟨some "T", some "https://example.com/a", none, none⟩]).length =
      ((([⟨some "T", some "https://example.com/a", none, none⟩] :
          List SearchResult).take 5).filter hasUrl).length ∧
     (rowsToSave "q" "ans"
        [⟨some "T", some "https://example.com/a", none, none⟩]).length ≤ 5 ∧
     (∀ r ∈ rowsToSave "q" "ans"
        [⟨some "T", some "https://example.com/a", none, none⟩], r.url ≠ "")) :=
  ⟨by decide,
    c4_save_derivation_amended
      ⟨[("h1", ⟨"q", "ans", [⟨some "T", some "https://example.com/a", none, none⟩], 5⟩)],
        ⟨1, []⟩⟩ 10 "h1"
      ⟨"q", "ans", [⟨some "T", some "https://example.com/a", none, none⟩], 5⟩ (by decide)⟩

lemma rowToSave_eq_none_of_no_url (t a : String) (s : SearchResult)
    (h : hasUrl s = false) : rowToSave t a s = none := by
  unfold rowToSave
  unfold hasUrl at h
  cases hurl : s.url with
  | none => simp [hurl]
  | some u =>
    simp only [hurl] at h ⊢
    have hu : jsTrim u = "" := by simpa using h
    rw [if_pos hu]

/-- C10: on a cache hit whose first-5 sources all lack a usable URL (or
whose source list is empty), save inserts zero rows yet still returns the
success-shaped response with an empty id list — not the failure
response. -/
theorem c10_save_zero_rows_success_shape (st : ServerState) (now : Int)
    (rid : String) (topic : Option String) (c : CachedSearchResult)
    (hc : mapGet (cleanupSearchCache now st.cache) rid = some c)
    (hnourl : ∀ s ∈ c.sources.take 5, hasUrl s = false) :
    (saveToDb st now rid topic).1.repo = st.repo ∧
    (saveToDb st now rid topic).2 = .saved [] [] := by
  have hrows : rowsToSave (trimmedOr topic c.query) c.answerText c.sources = [] := by
    unfold rowsToSave
    apply List.filterMap_eq_nil_iff.mpr
    intro s hs
    exact rowToSave_eq_none_of_no_url _ _ s (hnourl s hs)
  have hhit : saveHit st.repo now topic c = (st.repo, .saved [] []) := by
    unfold saveHit saveNewsRows
    rw [hrows]
    rfl
  rw [saveToDb_of_some st now rid topic c hc, hhit]
  exact ⟨rfl, rfl⟩

/-- C10 witness: a cache hit whose only source has no URL. -/
theorem c10_save_zero_rows_success_shape_witness :
    (mapGet (cleanupSearchCache 10
        [("h2", ⟨"q", "ans", [⟨some "T", none, none, none⟩], 5⟩)]) "h2" =
      some ⟨"q", "ans", [⟨some "T", none, none, none⟩], 5⟩ ∧
     ∀ s ∈ (⟨"q", "ans", [⟨some "T", none, none, none⟩], 5⟩ :
        CachedSearchResult).sources.take 5, hasUrl s = false) ∧
    ((saveToDb ⟨[("h2", ⟨"q", "ans", [⟨some "T", none, none, none⟩], 5⟩)], ⟨1, []⟩⟩
        10 "h2" none).1.repo = ⟨1, []⟩ ∧
     (saveToDb ⟨[("h2", ⟨"q", "ans", [⟨some "T", none, none, none⟩], 5⟩)], ⟨1, []⟩⟩
        10 "h2" none).2 = .saved [] []) :=
  ⟨⟨by decide, by decide⟩,
    c10_save_zero_rows_success_shape
      ⟨[("h2", ⟨"q", "ans", [⟨some "T", none, none, none⟩], 5⟩)], ⟨1, []⟩⟩ 10 "h2" none
      ⟨"q", "ans", [⟨some "T", none, none, none⟩], 5⟩ (by decide) (by decide)⟩

end SimpleAgent
